import Mathlib

/-!
Verification of the Cast Ticket Engine (routes/cast.ts).

Shallow embedding notes:
- Timestamps are epoch milliseconds as `Int` (the source stores ISO-8601 strings in the
  `started_at` / `ended_at` columns and converts with `toMs` before any arithmetic).
- JavaScript `%` is the truncated remainder; it is modelled by `Int.tmod` (`jsMod` below).
- `Math.floor(elapsed / interval)` on a positive `interval` is floor division, which is
  `Int` `/` (Euclidean division) in Lean; the source guards `elapsed <= 0` before dividing.
- The environment-derived constants (`CAST_UNLIMITED_CAP`, `CAST_DEFAULT_CLAIM_MAX`,
  `CAST_MIN_CLAIM_INTERVAL_MS`, `CAST_PREFER_WAIT_MAX_MS`) are collected into a `Config`
  record that is passed explicitly.
- The `cast` table is a `List CastRow`; drizzle's conditional update returning affected
  rows becomes `casUpdate`, and the `endedAt is null` selection becomes `getActive`.
-/

namespace IdleCast

/-- A row of the `cast` table (`typeof cast.$inferSelect`).  `startedAt` and `endedAt`
hold epoch milliseconds (the source keeps ISO strings and converts via `toMs`). -/
structure CastRow where
  id : Nat
  skill : String
  target : String
  startedAt : Int
  claimed : Int
  claimMax : Option Int
  claimInterval : Int
  endedAt : Option Int
deriving Repr, DecidableEq

/-- The injected configuration: `UNLIMITED_CAP`, `DEFAULT_CLAIM_MAX`,
`MIN_CLAIM_INTERVAL_MS`, `PREFER_WAIT_MAX_MS` from the environment schema. -/
structure Config where
  unlimitedCap : Int
  defaultClaimMax : Option Int
  minClaimIntervalMs : Int
  preferWaitMaxMs : Int
deriving Repr, DecidableEq

/-- `const clamp = (n, lo, hi) => Math.max(lo, Math.min(hi, n))`. -/
def clamp (n lo hi : Int) : Int := max lo (min hi n)

/-- JavaScript `%` (truncated remainder, sign of the dividend). -/
def jsMod (a b : Int) : Int := Int.tmod a b

/-- `ticksElapsed(row, atMs)`: elapsed clamped at zero, then floor-divided by the
claim interval. -/
def ticksElapsed (row : CastRow) (atMs : Int) : Int :=
  if atMs - row.startedAt ≤ 0 then 0 else (atMs - row.startedAt) / row.claimInterval

/-- `maxRuns(row)`: `claimMax` when present, else the configured hard cap. -/
def maxRuns (cfg : Config) (row : CastRow) : Int :=
  match row.claimMax with
  | none => cfg.unlimitedCap
  | some m => m

/-- `availableRuns(row, atMs) = max(0, min(ticksElapsed, maxRuns) - claimed)`. -/
def availableRuns (cfg : Config) (row : CastRow) (atMs : Int) : Int :=
  max 0 (min (ticksElapsed row atMs) (maxRuns cfg row) - row.claimed)

/-- `nextEta(row, atMs)`: `0` when something is claimable, otherwise the time left
until the next tick boundary, computed with JavaScript remainder semantics. -/
def nextEta (cfg : Config) (row : CastRow) (atMs : Int) : Int :=
  if 0 < availableRuns cfg row atMs then 0
  else
    row.claimInterval -
      jsMod (jsMod (atMs - row.startedAt) row.claimInterval + row.claimInterval)
        row.claimInterval

/-- `finished(row, atMs) = ticksElapsed >= maxRuns`. -/
def finished (cfg : Config) (row : CastRow) (atMs : Int) : Bool :=
  decide (maxRuns cfg row ≤ ticksElapsed row atMs)

/-- Most recent row of a non-empty candidate list (`orderBy(desc(startedAt)).limit(1)`). -/
def mostRecent (x : CastRow) (xs : List CastRow) : CastRow :=
  xs.foldl (fun acc r => if acc.startedAt < r.startedAt then r else acc) x

/-- `getActive()`: the most recently started row whose `endedAt` is null. -/
def getActive (store : List CastRow) : Option CastRow :=
  match store.filter (fun r => r.endedAt.isNone) with
  | [] => none
  | x :: xs => some (mostRecent x xs)

/-- Drizzle conditional update of the claim counter:
`update(cast).set({claimed: claimed + take}).where(and(eq(cast.id, rid), eq(cast.claimed, obs))).returning()`.
Returns the new table contents paired with the list of affected (updated) rows. -/
def casUpdate (store : List CastRow) (rid : Nat) (obs take : Int) :
    List CastRow × List CastRow :=
  (store.map fun r =>
      if r.id = rid ∧ r.claimed = obs then { r with claimed := r.claimed + take } else r,
   (store.filter fun r => decide (r.id = rid ∧ r.claimed = obs)).map
      fun r => { r with claimed := r.claimed + take })

/-- Outcome of `POST /cast/claim`. -/
inductive ClaimOutcome where
  | notFound : ClaimOutcome
  | paused (id : Nat) (taken totalClaimed remaining eta : Int) : ClaimOutcome
  | conflict : ClaimOutcome
  | ok (id : Nat) (taken totalClaimed remaining eta : Int) : ClaimOutcome
deriving Repr, DecidableEq

/-- HTTP status attached to each claim outcome (404 / 202 / 409 / 200). -/
def claimStatus : ClaimOutcome → Nat
  | .notFound => 404
  | .paused _ _ _ _ _ => 202
  | .conflict => 409
  | .ok _ _ _ _ _ => 200

/-- `remaining` as computed in the claim route:
`claimMax == null ? max(0, UNLIMITED_CAP - claimed) : max(0, maxRuns - claimed)`. -/
def remainingOf (cfg : Config) (row : CastRow) : Int :=
  match row.claimMax with
  | none => max 0 (cfg.unlimitedCap - row.claimed)
  | some _ => max 0 (maxRuns cfg row - row.claimed)

/-- `requested = Number.isFinite(limitParam) ? Math.max(1, Math.floor(limitParam)) : available`.
A missing or non-finite `?limit=` query is `none`; a finite numeric value is a rational. -/
def requestedRuns (limit : Option ℚ) (available : Int) : Int :=
  match limit with
  | none => available
  | some q => max 1 ⌊q⌋

/-- `take = clamp(requested, 1, available)`. -/
def takeRuns (limit : Option ℚ) (available : Int) : Int :=
  clamp (requestedRuns limit available) 1 available

/-- The `POST /cast/claim` handler.  `snap` is the ticket loaded in step 1 (by
`getActive`); `store` is the table contents at the moment the conditional update
executes, which under a concurrent claim may no longer agree with `snap`.  Returns the
outcome and the table contents after the handler finishes. -/
def claimHandler (cfg : Config) (snap : Option CastRow) (limit : Option ℚ) (atMs : Int)
    (store : List CastRow) : ClaimOutcome × List CastRow :=
  match snap with
  | none => (.notFound, store)
  | some row =>
    if availableRuns cfg row atMs = 0 then
      (.paused row.id 0 row.claimed (remainingOf cfg row) (nextEta cfg row atMs), store)
    else
      let take := takeRuns limit (availableRuns cfg row atMs)
      let res := casUpdate store row.id row.claimed take
      match res.2 with
      | [] => (.conflict, res.1)
      | u :: _ =>
        (.ok u.id take u.claimed (remainingOf cfg u) (nextEta cfg u atMs), res.1)

/-- `POST /cast/claim` without interference: the snapshot is read from the same table
state the conditional update runs against. -/
def claimRoute (cfg : Config) (store : List CastRow) (limit : Option ℚ) (atMs : Int) :
    ClaimOutcome × List CastRow :=
  claimHandler cfg (getActive store) limit atMs store

/-- `tx.update(cast).set({endedAt: nowIso}).where(isNull(cast.endedAt))`: soft-end every
currently active row. -/
def endActive (now : Int) (store : List CastRow) : List CastRow :=
  store.map fun r => if r.endedAt = none then { r with endedAt := some now } else r

/-- The row inserted by `POST /cast` (`claimed: 0`, `startedAt: now`, `endedAt` null). -/
def newTicket (id : Nat) (skill target : String) (now : Int) (cm : Option Int)
    (interval : Int) : CastRow :=
  { id := id, skill := skill, target := target, startedAt := now, claimed := 0,
    claimMax := cm, claimInterval := interval, endedAt := none }

/-- The `POST /cast` transaction: soft-end the active ticket (if any) and insert the new
one; both effects commit together. -/
def startOp (id : Nat) (skill target : String) (now : Int) (cm : Option Int)
    (interval : Int) (store : List CastRow) : List CastRow :=
  endActive now store ++ [newTicket id skill target now cm interval]

/-- The `DELETE /cast` handler: soft-end the active ticket; a no-op when none exists. -/
def cancelOp (now : Int) (store : List CastRow) : List CastRow := endActive now store

/-- Version tag for conditional GET.  The source renders it as the string
`W/"{id}:{claimed}:{startedMs}"`; decimal numerals contain no `:` or `"`, so that string
is in bijection with the triple `(id, claimed, startedMs)`, which models the tag here. -/
def etagFor (row : CastRow) : Nat × Int × Int := (row.id, row.claimed, row.startedAt)

/-- JSON body of a `GET /cast` response (`available` is only present when ready). -/
structure GetBody where
  id : Nat
  eta : Int
  available : Option Int
  claimed : Int
  claimMax : Option Int
  claimInterval : Int
  unlimited : Bool
  finished : Bool
deriving Repr, DecidableEq

/-- A `GET /cast` response: status, `ETag` header, `Retry-After` hint (milliseconds,
also emitted as whole seconds), and body (absent for 304/404). -/
structure GetResponse where
  status : Nat
  etagHeader : Option (Nat × Int × Int)
  retryAfterMs : Option Int
  body : Option GetBody
deriving Repr, DecidableEq

/-- The `GET /cast` handler.  `snap` is the row loaded before the bounded long-poll
sleep; `atEnd` is the clock after the sleep.  The handler never re-reads the table:
everything after the sleep is recomputed from `snap` and `atEnd` alone. -/
def getHandler (cfg : Config) (snap : Option CastRow) (inm : Option (Nat × Int × Int))
    (atEnd : Int) : GetResponse :=
  match snap with
  | none => { status := 404, etagHeader := none, retryAfterMs := none, body := none }
  | some row =>
    if inm = some (etagFor row) then
      { status := 304, etagHeader := some (etagFor row), retryAfterMs := none,
        body := none }
    else
      if availableRuns cfg row atEnd = 0 then
        { status := 202, etagHeader := some (etagFor row),
          retryAfterMs :=
            if 0 < nextEta cfg row atEnd then some (nextEta cfg row atEnd) else none,
          body := some { id := row.id, eta := nextEta cfg row atEnd, available := none,
                         claimed := row.claimed, claimMax := row.claimMax,
                         claimInterval := row.claimInterval,
                         unlimited := row.claimMax.isNone,
                         finished := finished cfg row atEnd } }
      else
        { status := 200, etagHeader := some (etagFor row), retryAfterMs := none,
          body := some { id := row.id, eta := 0,
                         available := some (availableRuns cfg row atEnd),
                         claimed := row.claimed, claimMax := row.claimMax,
                         claimInterval := row.claimInterval,
                         unlimited := row.claimMax.isNone,
                         finished := finished cfg row atEnd } }

/-- `GET /cast` seen as an operation on the table: it performs no write. -/
def getRoute (cfg : Config) (store : List CastRow) (inm : Option (Nat × Int × Int))
    (atEnd : Int) : GetResponse × List CastRow :=
  (getHandler cfg (getActive store) inm atEnd, store)

/-- Engine state for the concurrency model: the table, the set of row snapshots that
in-flight claim calls have loaded (ghost state), and the next fresh row id. -/
structure EngineState where
  store : List CastRow
  snaps : List CastRow
  nextId : Nat
deriving Repr

/-- One engine operation.  `claim` may run against any previously loaded snapshot,
modelling a claimant racing with other writers between its read and its
compare-and-swap. -/
inductive Step (cfg : Config) : EngineState → EngineState → Prop where
  | start (s : EngineState) (skill target : String) (now : Int) (cm : Option Int)
      (interval : Int) (hcm : ∀ m, cm = some m → 1 ≤ m)
      (hiv : cfg.minClaimIntervalMs ≤ interval) :
      Step cfg s ⟨startOp s.nextId skill target now cm interval s.store, s.snaps,
        s.nextId + 1⟩
  | cancel (s : EngineState) (now : Int) :
      Step cfg s ⟨cancelOp now s.store, s.snaps, s.nextId⟩
  | load (s : EngineState) (r : CastRow) (hr : getActive s.store = some r) :
      Step cfg s ⟨s.store, r :: s.snaps, s.nextId⟩
  | claim (s : EngineState) (snap : CastRow) (hs : snap ∈ s.snaps) (limit : Option ℚ)
      (atMs : Int) :
      Step cfg s ⟨(claimHandler cfg (some snap) limit atMs s.store).2, s.snaps, s.nextId⟩
  | get (s : EngineState) :
      Step cfg s s

/-- States reachable from the empty table. -/
inductive Reachable (cfg : Config) : EngineState → Prop where
  | init : Reachable cfg ⟨[], [], 0⟩
  | step {s t : EngineState} : Reachable cfg s → Step cfg s t → Reachable cfg t

section Sanity

example : clamp 7 1 5 = 5 := by decide
example : jsMod (-3) 2000 = -3 := by decide

end Sanity

/-! ### Arithmetic helper lemmas -/

theorem neg_lt_tmod (e : Int) {i : Int} (hi : 0 < i) : -i < Int.tmod e i := by
  match e with
  | Int.ofNat m =>
      have h0 : 0 ≤ Int.tmod (Int.ofNat m) i :=
        Int.tmod_nonneg i (by simp [Int.ofNat_eq_natCast])
      omega
  | Int.negSucc m =>
      match i with
      | Int.ofNat n =>
          have hn : 0 < n := by
            simp only [Int.ofNat_eq_natCast] at hi
            exact_mod_cast hi
          have hlt : Nat.succ m % n < n := Nat.mod_lt _ hn
          have hdef : Int.tmod (Int.negSucc m) (Int.ofNat n) =
              -(Int.ofNat (Nat.succ m % n)) := rfl
          rw [hdef]
          simp only [Int.ofNat_eq_natCast]
          omega
      | Int.negSucc n =>
          have := Int.negSucc_lt_zero n
          omega

theorem jsMod_norm_bounds (e : Int) {i : Int} (hi : 0 < i) :
    0 ≤ jsMod (jsMod e i + i) i ∧ jsMod (jsMod e i + i) i < i := by
  have h1 : -i < Int.tmod e i := neg_lt_tmod e hi
  have h3 : 0 ≤ Int.tmod e i + i := by omega
  unfold jsMod
  exact ⟨Int.tmod_nonneg i h3, Int.tmod_lt_of_pos _ hi⟩

theorem availableRuns_nonneg (cfg : Config) (row : CastRow) (atMs : Int) :
    0 ≤ availableRuns cfg row atMs := by
  unfold availableRuns; omega

theorem availableRuns_le_of_pos {cfg : Config} {row : CastRow} {atMs : Int}
    (h : 0 < availableRuns cfg row atMs) :
    availableRuns cfg row atMs ≤ maxRuns cfg row - row.claimed := by
  unfold availableRuns at h ⊢; omega

theorem takeRuns_bounds (limit : Option ℚ) {A : Int} (hA : 0 < A) :
    1 ≤ takeRuns limit A ∧ takeRuns limit A ≤ A := by
  unfold takeRuns requestedRuns clamp
  cases limit with
  | none => omega
  | some q => omega

theorem maxRuns_congr (cfg : Config) {r w : CastRow} (h : w.claimMax = r.claimMax) :
    maxRuns cfg w = maxRuns cfg r := by
  unfold maxRuns; rw [h]

/-! ### Store helper lemmas -/

theorem mostRecent_mem (x : CastRow) (xs : List CastRow) : mostRecent x xs ∈ x :: xs := by
  unfold mostRecent
  induction xs generalizing x with
  | nil => simp
  | cons y ys ih =>
      simp only [List.foldl_cons]
      have h := ih (if x.startedAt < y.startedAt then y else x)
      rcases List.mem_cons.mp h with h1 | h1
      · rw [h1]
        by_cases hxy : x.startedAt < y.startedAt <;> simp [hxy]
      · simp [List.mem_cons, h1]

theorem getActive_mem {store : List CastRow} {r : CastRow}
    (h : getActive store = some r) : r ∈ store ∧ r.endedAt = none := by
  unfold getActive at h
  cases hf : store.filter (fun r => r.endedAt.isNone) with
  | nil => rw [hf] at h; cases h
  | cons x xs =>
      rw [hf] at h
      injection h with h
      have hm : mostRecent x xs ∈ x :: xs := mostRecent_mem x xs
      rw [← hf, h] at hm
      refine ⟨List.mem_of_mem_filter hm, ?_⟩
      have := List.of_mem_filter hm
      simpa [Option.isNone_iff_eq_none] using this

theorem getActive_of_no_active {store : List CastRow}
    (h : ∀ r ∈ store, r.endedAt ≠ none) : getActive store = none := by
  unfold getActive
  have hf : store.filter (fun r => r.endedAt.isNone) = [] := by
    rw [List.filter_eq_nil_iff]
    intro a ha
    simpa [Option.isNone_iff_eq_none] using h a ha
  rw [hf]

theorem eq_of_mem_pairwise_ids {store : List CastRow}
    (hp : store.Pairwise fun a b => a.id ≠ b.id) {r w : CastRow}
    (hr : r ∈ store) (hw : w ∈ store) (h : w.id = r.id) : w = r := by
  induction store with
  | nil => cases hr
  | cons a l ih =>
      rcases List.pairwise_cons.mp hp with ⟨ha, hl⟩
      rcases List.mem_cons.mp hr with h1 | h1 <;> rcases List.mem_cons.mp hw with h2 | h2
      · rw [h1, h2]
      · exfalso
        have hww : w.id = a.id := by rw [h, h1]
        exact (ha w h2) hww.symm
      · exfalso
        have haa : a.id = r.id := by rw [← h2]; exact h
        exact (ha r h1) haa
      · exact ih hl h1 h2

theorem claimHandler_snd (cfg : Config) (row : CastRow) (limit : Option ℚ) (atMs : Int)
    (store : List CastRow) :
    (claimHandler cfg (some row) limit atMs store).2 =
      if availableRuns cfg row atMs = 0 then store
      else (casUpdate store row.id row.claimed
        (takeRuns limit (availableRuns cfg row atMs))).1 := by
  unfold claimHandler
  by_cases h : availableRuns cfg row atMs = 0
  · simp [h]
  · simp only [h, if_neg, ite_false]
    cases hres : (casUpdate store row.id row.claimed
        (takeRuns limit (availableRuns cfg row atMs))).2 with
    | nil => simp [hres]
    | cons u us => simp [hres]

/-! ### Concrete fixtures for witnesses -/

/-- Configuration with all environment defaults (`UNLIMITED_CAP = 1000`,
`DEFAULT_CLAIM_MAX = 1`, `MIN_CLAIM_INTERVAL_MS = 250`, `PREFER_WAIT_MAX_MS = 10000`). -/
def cfgW : Config := ⟨1000, some 1, 250, 10000⟩

/-- A ticket for the demo `fishing` skill started at epoch 0 with `claimMax = 5`. -/
def rowW : CastRow := ⟨0, "fishing", "little_pond", 0, 0, some 5, 2000, none⟩

/-! ### Claim theorems -/

/-- C1: for every ticket and every `now` with `now ≥ startedAt`, `availableRuns` equals
`max(0, min(floor((now - startedAt) / claimInterval), maxRuns) - claimed)`, where
`maxRuns` is `claimMax` when non-null and the configured `unlimitedCap` otherwise. -/
theorem claim_C1_availableRuns_formula (cfg : Config) (row : CastRow) (now : Int)
    (hnow : row.startedAt ≤ now) :
    availableRuns cfg row now =
      max 0 (min ((now - row.startedAt) / row.claimInterval) (maxRuns cfg row)
        - row.claimed) ∧
    maxRuns cfg row = row.claimMax.getD cfg.unlimitedCap := by
  constructor
  · unfold availableRuns ticksElapsed
    rcases lt_or_le row.startedAt now with h | h
    · rw [if_neg (by omega)]
    · have h0 : now - row.startedAt = 0 := by omega
      rw [h0]
      simp
  · rcases hcm : row.claimMax with _ | m <;> simp [maxRuns, hcm]

/-- Witness for C1 at `now = 4000` on the concrete ticket. -/
theorem claim_C1_witness :
    rowW.startedAt ≤ 4000 ∧
    (availableRuns cfgW rowW 4000 =
      max 0 (min ((4000 - rowW.startedAt) / rowW.claimInterval) (maxRuns cfgW rowW)
        - rowW.claimed) ∧
     maxRuns cfgW rowW = rowW.claimMax.getD cfgW.unlimitedCap) :=
  ⟨by decide, claim_C1_availableRuns_formula cfgW rowW 4000 (by decide)⟩

/-- C4: `nextEta = 0` iff `availableRuns > 0`; when `availableRuns = 0`, `nextEta`
equals `claimInterval - ((elapsed mod claimInterval + claimInterval) mod claimInterval)`
(JavaScript truncated `mod`) and lies strictly above 0 and at most `claimInterval`. -/
theorem claim_C4_nextEta (cfg : Config) (row : CastRow) (now : Int)
    (hiv : 0 < row.claimInterval) :
    (nextEta cfg row now = 0 ↔ 0 < availableRuns cfg row now) ∧
    (availableRuns cfg row now = 0 →
      nextEta cfg row now = row.claimInterval -
        jsMod (jsMod (now - row.startedAt) row.claimInterval + row.claimInterval)
          row.claimInterval ∧
      0 < nextEta cfg row now ∧ nextEta cfg row now ≤ row.claimInterval) := by
  have hbounds := jsMod_norm_bounds (now - row.startedAt) hiv
  have hnn := availableRuns_nonneg cfg row now
  by_cases h : 0 < availableRuns cfg row now
  · refine ⟨⟨fun _ => h, fun _ => ?_⟩, fun h0 => by omega⟩
    unfold nextEta
    rw [if_pos h]
  · have heta : nextEta cfg row now = row.claimInterval -
        jsMod (jsMod (now - row.startedAt) row.claimInterval + row.claimInterval)
          row.claimInterval := by
      unfold nextEta
      rw [if_neg h]
    refine ⟨⟨fun hz => ?_, fun hpos => absurd hpos h⟩,
      fun _ => ⟨heta, by rw [heta]; omega, by rw [heta]; omega⟩⟩
    rw [heta] at hz
    omega

/-- Witness for C4 on the concrete ticket at `now = 500` (mid-interval, none ready). -/
theorem claim_C4_witness :
    ((0 : Int) < rowW.claimInterval) ∧
    ((nextEta cfgW rowW 500 = 0 ↔ 0 < availableRuns cfgW rowW 500) ∧
     (availableRuns cfgW rowW 500 = 0 →
       nextEta cfgW rowW 500 = rowW.claimInterval -
         jsMod (jsMod (500 - rowW.startedAt) rowW.claimInterval + rowW.claimInterval)
           rowW.claimInterval ∧
       0 < nextEta cfgW rowW 500 ∧ nextEta cfgW rowW 500 ≤ rowW.claimInterval)) :=
  ⟨by decide, claim_C4_nextEta cfgW rowW 500 (by decide)⟩

/-- C2: when a claim observes `availableRuns > 0` but the conditional update
(`claimed := claimed + take` where `id` and the observed `claimed` still match)
affects zero rows, the handler returns Conflict (HTTP 409) and leaves the table
unchanged; no retry happens inside the engine — the Conflict outcome is final. -/
theorem claim_C2_conflict (cfg : Config) (store : List CastRow) (row : CastRow)
    (limit : Option ℚ) (atMs : Int) (hav : 0 < availableRuns cfg row atMs)
    (hrace : ∀ w ∈ store, ¬(w.id = row.id ∧ w.claimed = row.claimed)) :
    claimHandler cfg (some row) limit atMs store = (ClaimOutcome.conflict, store) ∧
    claimStatus ClaimOutcome.conflict = 409 := by
  have hne : ¬(availableRuns cfg row atMs = 0) := by omega
  have hfil : (store.filter fun r =>
      decide (r.id = row.id ∧ r.claimed = row.claimed)) = [] := by
    rw [List.filter_eq_nil_iff]
    intro a ha
    simpa using hrace a ha
  have hmap : (store.map fun r =>
      if r.id = row.id ∧ r.claimed = row.claimed
      then { r with claimed := r.claimed + takeRuns limit (availableRuns cfg row atMs) }
      else r) = store := by
    rw [List.map_congr_left (fun a ha => if_neg (hrace a ha))]
    exact List.map_id' store
  refine ⟨?_, rfl⟩
  simp only [claimHandler, casUpdate]
  rw [if_neg hne]
  simp only [hfil, List.map_nil, hmap]

/-- Witness for C2: the table holds a row whose counter moved on from the snapshot. -/
theorem claim_C2_witness :
    (0 : Int) < availableRuns cfgW rowW 4000 ∧
    (∀ w ∈ [{ rowW with claimed := 2 }], ¬(w.id = rowW.id ∧ w.claimed = rowW.claimed)) ∧
    claimHandler cfgW (some rowW) none 4000 [{ rowW with claimed := 2 }] =
      (ClaimOutcome.conflict, [{ rowW with claimed := 2 }]) :=
  ⟨by decide, by decide,
    (claim_C2_conflict cfgW [{ rowW with claimed := 2 }] rowW none 4000 (by decide)
      (by decide)).1⟩

/-- C5: a Claim with no active ticket (every row has `endedAt` set) fails with
NotFound (HTTP 404) and performs no write. -/
theorem claim_C5_notFound (cfg : Config) (store : List CastRow) (limit : Option ℚ)
    (atMs : Int) (hact : ∀ r ∈ store, r.endedAt ≠ none) :
    claimRoute cfg store limit atMs = (ClaimOutcome.notFound, store) ∧
    claimStatus ClaimOutcome.notFound = 404 := by
  unfold claimRoute
  rw [getActive_of_no_active hact]
  exact ⟨rfl, rfl⟩

/-- Witness for C5 on a table whose only ticket has already ended. -/
theorem claim_C5_witness :
    (∀ r ∈ [{ rowW with endedAt := some 9000 }], r.endedAt ≠ none) ∧
    claimRoute cfgW [{ rowW with endedAt := some 9000 }] none 4000 =
      (ClaimOutcome.notFound, [{ rowW with endedAt := some 9000 }]) :=
  ⟨by decide,
    (claim_C5_notFound cfgW [{ rowW with endedAt := some 9000 }] none 4000 (by decide)).1⟩

/-- C6: a Claim that finds an active ticket with `availableRuns = 0` returns a Paused
outcome (HTTP 202, not an error status) carrying `taken = 0`, the current claimed
total, `remaining = effectiveMax - claimed` clamped at 0, and `nextEta`; the table is
not written. -/
theorem claim_C6_paused (cfg : Config) (store : List CastRow) (row : CastRow)
    (limit : Option ℚ) (atMs : Int) (h0 : availableRuns cfg row atMs = 0) :
    claimHandler cfg (some row) limit atMs store =
      (ClaimOutcome.paused row.id 0 row.claimed (remainingOf cfg row)
        (nextEta cfg row atMs), store) ∧
    remainingOf cfg row = max 0 (maxRuns cfg row - row.claimed) ∧
    (row.claimMax = none → remainingOf cfg row = max 0 (cfg.unlimitedCap - row.claimed)) ∧
    claimStatus (ClaimOutcome.paused row.id 0 row.claimed (remainingOf cfg row)
      (nextEta cfg row atMs)) = 202 ∧
    claimStatus (ClaimOutcome.paused row.id 0 row.claimed (remainingOf cfg row)
      (nextEta cfg row atMs)) < 400 := by
  refine ⟨?_, ?_, ?_, rfl, by norm_num [claimStatus]⟩
  · simp only [claimHandler]
    rw [if_pos h0]
  · rcases hcm : row.claimMax with _ | m <;> simp [remainingOf, maxRuns, hcm]
  · intro hcm
    simp [remainingOf, hcm]

/-- Witness for C6 on the concrete ticket before its first tick. -/
theorem claim_C6_witness :
    availableRuns cfgW rowW 500 = 0 ∧
    claimHandler cfgW (some rowW) none 500 [rowW] =
      (ClaimOutcome.paused rowW.id 0 rowW.claimed (remainingOf cfgW rowW)
        (nextEta cfgW rowW 500), [rowW]) :=
  ⟨by decide, (claim_C6_paused cfgW [rowW] rowW none 500 (by decide)).1⟩

/-- C7: with `availableRuns > 0`, the number of runs taken is
`clamp(limit, 1, availableRuns)` for a finite parsed limit (non-integers floored,
values below 1 raised to 1) and `availableRuns` when the limit is absent or
non-finite; `take` always lies between 1 and `availableRuns`, and a successful claim
reports exactly this `take`. -/
theorem claim_C7_take (cfg : Config) (row : CastRow) (limit : Option ℚ) (atMs : Int)
    (store : List CastRow) (hav : 0 < availableRuns cfg row atMs) :
    (∀ q, limit = some q →
      takeRuns limit (availableRuns cfg row atMs) =
        clamp ⌊q⌋ 1 (availableRuns cfg row atMs)) ∧
    (limit = none →
      takeRuns limit (availableRuns cfg row atMs) = availableRuns cfg row atMs) ∧
    1 ≤ takeRuns limit (availableRuns cfg row atMs) ∧
    takeRuns limit (availableRuns cfg row atMs) ≤ availableRuns cfg row atMs ∧
    (∀ i tk tc rem eta store2,
      claimHandler cfg (some row) limit atMs store =
        (ClaimOutcome.ok i tk tc rem eta, store2) →
      tk = takeRuns limit (availableRuns cfg row atMs)) := by
  have hb := takeRuns_bounds limit hav
  refine ⟨?_, ?_, hb.1, hb.2, ?_⟩
  · intro q hq
    subst hq
    simp only [takeRuns, requestedRuns, clamp]
    omega
  · intro hq
    subst hq
    simp only [takeRuns, requestedRuns, clamp]
    omega
  · intro i tk tc rem eta store2 hrun
    have hne : ¬(availableRuns cfg row atMs = 0) := by omega
    simp only [claimHandler] at hrun
    rw [if_neg hne] at hrun
    rcases hres : (casUpdate store row.id row.claimed
        (takeRuns limit (availableRuns cfg row atMs))).2 with _ | ⟨u, us⟩ <;>
      rw [hres] at hrun <;> simp_all

/-- Witness for C7 at `now = 4000` with `?limit=5` (two ticks ready). -/
theorem claim_C7_witness :
    (0 : Int) < availableRuns cfgW rowW 4000 ∧
    takeRuns (some (5 : ℚ)) (availableRuns cfgW rowW 4000) =
      clamp ⌊(5 : ℚ)⌋ 1 (availableRuns cfgW rowW 4000) ∧
    1 ≤ takeRuns (some (5 : ℚ)) (availableRuns cfgW rowW 4000) ∧
    takeRuns (some (5 : ℚ)) (availableRuns cfgW rowW 4000) ≤
      availableRuns cfgW rowW 4000 :=
  have h := claim_C7_take cfgW rowW (some (5 : ℚ)) 4000 [rowW] (by decide)
  ⟨by decide, h.1 5 rfl, h.2.2.1, h.2.2.2.1⟩

/-- C9: the version tag is a deterministic function of `(id, claimed, startedAt)`;
when `If-None-Match` equals the current tag, Get answers 304 NotModified with no body
and performs no write; a changed `claimed` or a different ticket id yields a
different tag. -/
theorem claim_C9_etag (cfg : Config) (store : List CastRow) (row : CastRow)
    (inm : Option (Nat × Int × Int)) (atEnd : Int) :
    (∀ r1 r2 : CastRow, r1.id = r2.id → r1.claimed = r2.claimed →
      r1.startedAt = r2.startedAt → etagFor r1 = etagFor r2) ∧
    (inm = some (etagFor row) →
      getHandler cfg (some row) inm atEnd =
        { status := 304, etagHeader := some (etagFor row), retryAfterMs := none,
          body := none }) ∧
    (getRoute cfg store inm atEnd).2 = store ∧
    (∀ r1 r2 : CastRow, r1.claimed ≠ r2.claimed → etagFor r1 ≠ etagFor r2) ∧
    (∀ r1 r2 : CastRow, r1.id ≠ r2.id → etagFor r1 ≠ etagFor r2) := by
  refine ⟨?_, ?_, rfl, ?_, ?_⟩
  · intro r1 r2 h1 h2 h3
    unfold etagFor
    rw [h1, h2, h3]
  · intro hm
    simp only [getHandler]
    rw [if_pos hm]
  · intro r1 r2 hne heq
    exact hne (congrArg (fun p => p.2.1) heq)
  · intro r1 r2 hne heq
    exact hne (congrArg (fun p => p.1) heq)

/-- Witness for C9: a conditional GET with the matching tag on the concrete ticket. -/
theorem claim_C9_witness :
    getHandler cfgW (some rowW) (some (etagFor rowW)) 500 =
      { status := 304, etagHeader := some (etagFor rowW), retryAfterMs := none,
        body := none } ∧
    etagFor rowW ≠ etagFor { rowW with claimed := 2 } :=
  ⟨(claim_C9_etag cfgW [rowW] rowW (some (etagFor rowW)) 500).2.1 rfl,
   (claim_C9_etag cfgW [rowW] rowW (some (etagFor rowW)) 500).2.2.2.1 rowW
     { rowW with claimed := 2 } (by decide)⟩

/-- C10: after the long-poll wait, the Get handler recomputes `eta`, `availableRuns`
and `finished` from the pre-wait row snapshot together with the post-wait clock and
never re-reads the table, so the reported `claimed` and emitted ETag always equal those
of the snapshot. -/
theorem claim_C10_longpoll (cfg : Config) (row : CastRow)
    (inm : Option (Nat × Int × Int)) (atEnd : Int)
    (hm : inm ≠ some (etagFor row)) :
    ∃ b : GetBody,
      (getHandler cfg (some row) inm atEnd).body = some b ∧
      (getHandler cfg (some row) inm atEnd).etagHeader = some (etagFor row) ∧
      b.claimed = row.claimed ∧
      b.finished = finished cfg row atEnd ∧
      (availableRuns cfg row atEnd = 0 →
        (getHandler cfg (some row) inm atEnd).status = 202 ∧
        b.eta = nextEta cfg row atEnd ∧ b.available = none) ∧
      (0 < availableRuns cfg row atEnd →
        (getHandler cfg (some row) inm atEnd).status = 200 ∧ b.eta = 0 ∧
        b.available = some (availableRuns cfg row atEnd)) := by
  simp only [getHandler]
  rw [if_neg hm]
  by_cases h : availableRuns cfg row atEnd = 0
  · rw [if_pos h]
    exact ⟨_, rfl, rfl, rfl, rfl, fun _ => ⟨rfl, rfl, rfl⟩,
      fun hp => absurd h (by omega)⟩
  · rw [if_neg h]
    exact ⟨_, rfl, rfl, rfl, rfl, fun h0 => absurd h0 h, fun _ => ⟨rfl, rfl, rfl⟩⟩

/-- Witness for C10: a non-matching conditional GET at `now = 500` (nothing ready);
the response carries the snapshot's `claimed` and tag and a 202 with the recomputed
eta. -/
theorem claim_C10_witness :
    (none ≠ some (etagFor rowW)) ∧
    ∃ b : GetBody,
      (getHandler cfgW (some rowW) none 500).body = some b ∧
      (getHandler cfgW (some rowW) none 500).etagHeader = some (etagFor rowW) ∧
      b.claimed = rowW.claimed ∧
      b.finished = finished cfgW rowW 500 ∧
      (availableRuns cfgW rowW 500 = 0 →
        (getHandler cfgW (some rowW) none 500).status = 202 ∧
        b.eta = nextEta cfgW rowW 500 ∧ b.available = none) ∧
      (0 < availableRuns cfgW rowW 500 →
        (getHandler cfgW (some rowW) none 500).status = 200 ∧ b.eta = 0 ∧
        b.available = some (availableRuns cfgW rowW 500)) :=
  ⟨by decide, claim_C10_longpoll cfgW rowW none 500 (by decide)⟩

/-! ### Lifecycle and invariant infrastructure -/

/-- Number of active rows (`endedAt` null) in the table. -/
def activeCount (store : List CastRow) : Nat :=
  store.countP fun r => r.endedAt.isNone

theorem activeCount_endActive (now : Int) (store : List CastRow) :
    activeCount (endActive now store) = 0 := by
  unfold activeCount endActive
  rw [List.countP_eq_zero]
  intro a ha
  rcases List.mem_map.mp ha with ⟨w, hw, h⟩
  subst h
  by_cases he : w.endedAt = none <;> simp [he]

theorem activeCount_startOp (id : Nat) (skill target : String) (now : Int)
    (cm : Option Int) (interval : Int) (store : List CastRow) :
    activeCount (startOp id skill target now cm interval store) = 1 := by
  have h0 := activeCount_endActive now store
  unfold activeCount at h0 ⊢
  unfold startOp
  rw [List.countP_append, h0]
  simp [newTicket]

theorem endActive_mem {now : Int} {store : List CastRow} {w : CastRow}
    (hw : w ∈ endActive now store) :
    ∃ v ∈ store, w.id = v.id ∧ w.startedAt = v.startedAt ∧ w.claimed = v.claimed ∧
      w.claimMax = v.claimMax := by
  rcases List.mem_map.mp hw with ⟨v, hv, h⟩
  subst h
  by_cases he : v.endedAt = none
  · rw [if_pos he]
    exact ⟨v, hv, rfl, rfl, rfl, rfl⟩
  · rw [if_neg he]
    exact ⟨v, hv, rfl, rfl, rfl, rfl⟩

theorem casUpdate_mem {store : List CastRow} {rid : Nat} {obs take : Int} {w : CastRow}
    (hw : w ∈ (casUpdate store rid obs take).1) :
    ∃ v ∈ store, w.id = v.id ∧ w.startedAt = v.startedAt ∧ w.claimMax = v.claimMax ∧
      w.endedAt = v.endedAt ∧
      (w.claimed = v.claimed ∨
        (v.id = rid ∧ v.claimed = obs ∧ w.claimed = v.claimed + take)) := by
  rcases List.mem_map.mp hw with ⟨v, hv, h⟩
  subst h
  by_cases hc : v.id = rid ∧ v.claimed = obs
  · rw [if_pos hc]
    exact ⟨v, hv, rfl, rfl, rfl, rfl, Or.inr ⟨hc.1, hc.2, rfl⟩⟩
  · rw [if_neg hc]
    exact ⟨v, hv, rfl, rfl, rfl, rfl, Or.inl rfl⟩

theorem pairwise_ids_map (f : CastRow → CastRow) (hf : ∀ r, (f r).id = r.id)
    {l : List CastRow} (h : l.Pairwise fun a b => a.id ≠ b.id) :
    (l.map f).Pairwise fun a b => a.id ≠ b.id :=
  h.map f fun a b hab => by rw [hf, hf]; exact hab

theorem endActive_id_preserve (now : Int) (r : CastRow) :
    ((if r.endedAt = none then { r with endedAt := some now } else r) : CastRow).id
      = r.id := by
  by_cases he : r.endedAt = none <;> simp [he]

theorem casUpdate_id_preserve (rid : Nat) (obs take : Int) (r : CastRow) :
    ((if r.id = rid ∧ r.claimed = obs then { r with claimed := r.claimed + take }
      else r) : CastRow).id = r.id := by
  by_cases hc : r.id = rid ∧ r.claimed = obs <;> simp [hc]

theorem activeCount_casUpdate (store : List CastRow) (rid : Nat) (obs take : Int) :
    activeCount (casUpdate store rid obs take).1 = activeCount store := by
  unfold activeCount casUpdate
  rw [List.countP_map]
  apply List.countP_congr
  intro a _
  by_cases hc : a.id = rid ∧ a.claimed = obs <;> simp [hc]

/-- Inductive invariant: live row ids are fresh and distinct, claim counters stay in
bounds, and every snapshot agrees with the live row of the same id on the immutable
`claimMax` field. -/
structure StoreInv (cfg : Config) (s : EngineState) : Prop where
  idsLt : ∀ w ∈ s.store, w.id < s.nextId
  snapIdsLt : ∀ r ∈ s.snaps, r.id < s.nextId
  distinct : s.store.Pairwise fun a b => a.id ≠ b.id
  bounds : ∀ w ∈ s.store, 0 ≤ w.claimed ∧ w.claimed ≤ maxRuns cfg w
  snapMax : ∀ r ∈ s.snaps, ∀ w ∈ s.store, w.id = r.id → w.claimMax = r.claimMax

theorem storeInv_step {cfg : Config} (hcap : 1 ≤ cfg.unlimitedCap) {s t : EngineState}
    (hst : Step cfg s t) (hinv : StoreInv cfg s) : StoreInv cfg t := by
  cases hst with
  | start skill target now cm interval hcm hiv =>
      constructor
      · intro w hw
        rcases List.mem_append.mp hw with h | h
        · rcases endActive_mem h with ⟨v, hv, hid, _, _, _⟩
          have := hinv.idsLt v hv
          simp only [hid]
          omega
        · rcases List.mem_singleton.mp h with rfl
          show s.nextId < s.nextId + 1
          omega
      · intro r hr
        have := hinv.snapIdsLt r hr
        show r.id < s.nextId + 1
        omega
      · show ((endActive now s.store) ++ [newTicket s.nextId skill target now cm
          interval]).Pairwise fun a b => a.id ≠ b.id
        rw [List.pairwise_append]
        refine ⟨pairwise_ids_map _ (endActive_id_preserve now) hinv.distinct,
          List.pairwise_singleton _ _, ?_⟩
        intro a ha b hb
        rcases endActive_mem ha with ⟨v, hv, hid, _, _, _⟩
        rcases List.mem_singleton.mp hb with rfl
        have := hinv.idsLt v hv
        show a.id ≠ s.nextId
        omega
      · intro w hw
        rcases List.mem_append.mp hw with h | h
        · rcases endActive_mem h with ⟨v, hv, _, _, hcl, hcm2⟩
          have hb := hinv.bounds v hv
          have hmr : maxRuns cfg w = maxRuns cfg v := maxRuns_congr cfg hcm2
          omega
        · rcases List.mem_singleton.mp h with rfl
          have hmr : 1 ≤ maxRuns cfg (newTicket s.nextId skill target now cm interval) := by
            rcases hhm : cm with _ | m
            · simpa [maxRuns, newTicket, hhm] using hcap
            · have := hcm m hhm
              simpa [maxRuns, newTicket, hhm] using this
          show (0 : Int) ≤ 0 ∧ (0 : Int) ≤ maxRuns cfg _
          omega
      · intro r hr w hw hid
        rcases List.mem_append.mp hw with h | h
        · rcases endActive_mem h with ⟨v, hv, hvid, _, _, hvcm⟩
          rw [hvcm]
          exact hinv.snapMax r hr v hv (by omega)
        · rcases List.mem_singleton.mp h with rfl
          exfalso
          have := hinv.snapIdsLt r hr
          have : (newTicket s.nextId skill target now cm interval).id = r.id := hid
          simp [newTicket] at this
          omega
  | cancel now =>
      constructor
      · intro w hw
        rcases endActive_mem hw with ⟨v, hv, hid, _, _, _⟩
        have := hinv.idsLt v hv
        show w.id < s.nextId
        omega
      · exact hinv.snapIdsLt
      · exact pairwise_ids_map _ (endActive_id_preserve now) hinv.distinct
      · intro w hw
        rcases endActive_mem hw with ⟨v, hv, _, _, hcl, hcm2⟩
        have hb := hinv.bounds v hv
        have hmr : maxRuns cfg w = maxRuns cfg v := maxRuns_congr cfg hcm2
        omega
      · intro r hr w hw hid
        rcases endActive_mem hw with ⟨v, hv, hvid, _, _, hvcm⟩
        rw [hvcm]
        exact hinv.snapMax r hr v hv (by omega)
  | load r hr =>
      rcases getActive_mem hr with ⟨hrmem, _⟩
      constructor
      · exact hinv.idsLt
      · intro q hq
        rcases List.mem_cons.mp hq with rfl | hq
        · exact hinv.idsLt q hrmem
        · exact hinv.snapIdsLt q hq
      · exact hinv.distinct
      · exact hinv.bounds
      · intro q hq w hw hid
        rcases List.mem_cons.mp hq with rfl | hq
        · have : w = q := eq_of_mem_pairwise_ids hinv.distinct hrmem hw hid
          rw [this]
        · exact hinv.snapMax q hq w hw hid
  | claim snap hsn limit atMs =>
      rw [show (⟨(claimHandler cfg (some snap) limit atMs s.store).2, s.snaps,
          s.nextId⟩ : EngineState) =
        ⟨if availableRuns cfg snap atMs = 0 then s.store
         else (casUpdate s.store snap.id snap.claimed
           (takeRuns limit (availableRuns cfg snap atMs))).1, s.snaps, s.nextId⟩ from by
        rw [claimHandler_snd]]
      by_cases hav : availableRuns cfg snap atMs = 0
      · rw [if_pos hav]
        exact hinv
      · rw [if_neg hav]
        have hpos : 0 < availableRuns cfg snap atMs := by
          have := availableRuns_nonneg cfg snap atMs
          omega
        have htake := takeRuns_bounds limit hpos
        have hle := availableRuns_le_of_pos hpos
        constructor
        · intro w hw
          rcases casUpdate_mem hw with ⟨v, hv, hid, _, _, _, _⟩
          have := hinv.idsLt v hv
          show w.id < s.nextId
          omega
        · exact hinv.snapIdsLt
        · exact pairwise_ids_map _
            (casUpdate_id_preserve snap.id snap.claimed
              (takeRuns limit (availableRuns cfg snap atMs))) hinv.distinct
        · intro w hw
          rcases casUpdate_mem hw with ⟨v, hv, hid, _, hcm2, _, hcl⟩
          have hb := hinv.bounds v hv
          have hmr : maxRuns cfg w = maxRuns cfg v := maxRuns_congr cfg hcm2
          rcases hcl with hcl | ⟨hvid, hvobs, hcl⟩
          · omega
          · have hvmax : v.claimMax = snap.claimMax :=
              hinv.snapMax snap hsn v hv hvid
            have hms : maxRuns cfg v = maxRuns cfg snap := maxRuns_congr cfg hvmax
            omega
        · intro r hr w hw hid
          rcases casUpdate_mem hw with ⟨v, hv, hvid, _, hcm2, _, _⟩
          rw [hcm2]
          exact hinv.snapMax r hr v hv (by omega)
  | get =>
      exact hinv

theorem reachable_storeInv {cfg : Config} (hcap : 1 ≤ cfg.unlimitedCap)
    {s : EngineState} (h : Reachable cfg s) : StoreInv cfg s := by
  induction h with
  | init =>
      constructor
      · intro w hw; cases hw
      · intro r hr; cases hr
      · exact List.Pairwise.nil
      · intro w hw; cases hw
      · intro r hr w hw; cases hw
  | step hr hst ih => exact storeInv_step hcap hst ih

/-! ### Transition-system claim theorems -/

/-- C3: every engine operation (Start, Cancel, Claim, Get) preserves the invariant
that at most one row is active (`endedAt` null) and never removes a ticket row:
Start soft-ends the previously active rows and inserts the new ticket in the same
transaction, and Cancel soft-ends rather than deletes, so every pre-existing ticket
remains present (with its id and `startedAt`) as queryable history. -/
theorem claim_C3_lifecycle (cfg : Config) {s t : EngineState} (hst : Step cfg s t)
    (hs1 : activeCount s.store ≤ 1) :
    activeCount t.store ≤ 1 ∧
    (∀ r ∈ s.store, ∃ u ∈ t.store, u.id = r.id ∧ u.startedAt = r.startedAt) := by
  cases hst with
  | start skill target now cm interval hcm hiv =>
      constructor
      · show activeCount (startOp s.nextId skill target now cm interval s.store) ≤ 1
        rw [activeCount_startOp]
      · intro r hr
        refine ⟨if r.endedAt = none then { r with endedAt := some now } else r,
          List.mem_append_left _ (List.mem_map_of_mem _ hr), ?_, ?_⟩
        · by_cases he : r.endedAt = none <;> simp [he]
        · by_cases he : r.endedAt = none <;> simp [he]
  | cancel now =>
      constructor
      · show activeCount (cancelOp now s.store) ≤ 1
        unfold cancelOp
        rw [activeCount_endActive]
        omega
      · intro r hr
        refine ⟨if r.endedAt = none then { r with endedAt := some now } else r,
          List.mem_map_of_mem _ hr, ?_, ?_⟩
        · by_cases he : r.endedAt = none <;> simp [he]
        · by_cases he : r.endedAt = none <;> simp [he]
  | load r hr =>
      exact ⟨hs1, fun r hr => ⟨r, hr, rfl, rfl⟩⟩
  | claim snap hsn limit atMs =>
      rw [show (⟨(claimHandler cfg (some snap) limit atMs s.store).2, s.snaps,
          s.nextId⟩ : EngineState) =
        ⟨if availableRuns cfg snap atMs = 0 then s.store
         else (casUpdate s.store snap.id snap.claimed
           (takeRuns limit (availableRuns cfg snap atMs))).1, s.snaps, s.nextId⟩ from by
        rw [claimHandler_snd]]
      by_cases hav : availableRuns cfg snap atMs = 0
      · rw [if_pos hav]
        exact ⟨hs1, fun r hr => ⟨r, hr, rfl, rfl⟩⟩
      · rw [if_neg hav]
        constructor
        · show activeCount (casUpdate s.store snap.id snap.claimed _).1 ≤ 1
          rw [activeCount_casUpdate]
          exact hs1
        · intro r hr
          refine ⟨_, List.mem_map_of_mem _ hr, ?_, ?_⟩
          · by_cases hc : r.id = snap.id ∧ r.claimed = snap.claimed <;> simp [hc]
          · by_cases hc : r.id = snap.id ∧ r.claimed = snap.claimed <;> simp [hc]
  | get =>
      exact ⟨hs1, fun r hr => ⟨r, hr, rfl, rfl⟩⟩

/-- Witness for C3: a concrete Cancel step on a one-ticket table. -/
theorem claim_C3_witness :
    activeCount (⟨cancelOp 7 [rowW], [], 1⟩ : EngineState).store ≤ 1 ∧
    (∀ r ∈ (⟨[rowW], [], 1⟩ : EngineState).store,
      ∃ u ∈ (⟨cancelOp 7 [rowW], [], 1⟩ : EngineState).store,
        u.id = r.id ∧ u.startedAt = r.startedAt) :=
  claim_C3_lifecycle cfgW (Step.cancel ⟨[rowW], [], 1⟩ 7) (by decide)

/-- C8: in every reachable engine state each ticket satisfies
`0 ≤ claimed ≤ effectiveMax` (`claimMax` when present, else `unlimitedCap`): tickets
are created with `claimed = 0` and each successful claim adds at most
`min(ticksElapsed, maxRuns) - claimed`, even for claims racing from stale snapshots. -/
theorem claim_C8_claimed_bounds (cfg : Config) {s : EngineState}
    (hcap : 1 ≤ cfg.unlimitedCap) (hreach : Reachable cfg s) :
    ∀ w ∈ s.store, 0 ≤ w.claimed ∧ w.claimed ≤ maxRuns cfg w :=
  (reachable_storeInv hcap hreach).bounds

/-- Witness for C8: the state reached by one concrete Start step. -/
theorem claim_C8_witness :
    (1 : Int) ≤ cfgW.unlimitedCap ∧
    ∀ w ∈ (⟨startOp 0 "fishing" "little_pond" 0 (some 5) 2000 [], [],
        1⟩ : EngineState).store,
      0 ≤ w.claimed ∧ w.claimed ≤ maxRuns cfgW w :=
  ⟨by decide,
   claim_C8_claimed_bounds cfgW (by decide)
     (Reachable.step Reachable.init
       (Step.start ⟨[], [], 0⟩ "fishing" "little_pond" 0 (some 5) 2000
         (fun m hm => by injection hm with hm; omega) (by decide)))⟩

end IdleCast
